import Mathlib

/-!
Shallow embedding of the job-listing inference core of the Job-analyser
repository (`src/processor/job_processor.py`), together with theorems
checking the specification's claims about it.

Python strings are modelled as `List Char` (or `String`), Python floats as
`ℚ`, Python dicts and lists as Lean structures and lists.  The later
(overriding) definition of `analyze_salary_range` (lines 192-282 of the
source) is the one embedded, since the earlier one is shadowed in Python.

Because the standard `ℚ` arithmetic operations of the library are marked
irreducible, the embedding performs its arithmetic through the
kernel-reducible wrappers `qmul`, `qadd`, `qdivNat` and `qround` below;
each is accompanied by a bridge lemma proving it equal to the
corresponding standard operation, so the theorems can be stated with
ordinary `*`, `+`, `/` and `round`.
-/

namespace JobAnalyser

/-! ### Kernel-reducible rational arithmetic -/

/-- Multiplication on `ℚ` through `mkRat` (kernel-reducible). -/
def qmul (a b : ℚ) : ℚ := mkRat (a.num * b.num) (a.den * b.den)

/-- Addition on `ℚ` through `mkRat` (kernel-reducible). -/
def qadd (a b : ℚ) : ℚ := mkRat (a.num * b.den + b.num * a.den) (a.den * b.den)

/-- Division of a rational by a natural number through `mkRat`
(kernel-reducible); division by zero yields zero, as in the library. -/
def qdivNat (a : ℚ) (n : ℕ) : ℚ := mkRat a.num (a.den * n)

/-- Round-half-up to an integer (kernel-reducible): `⌊y + 1/2⌋` computed
as a floored integer division. -/
def qround (y : ℚ) : ℤ := (2 * y.num + y.den).fdiv (2 * y.den)

/-- A rational times its denominator is its numerator. -/
theorem rat_mul_den (y : ℚ) : y * (y.den : ℚ) = (y.num : ℚ) :=
  (eq_div_iff (Nat.cast_ne_zero.mpr y.den_nz)).mp (Rat.num_div_den y).symm

theorem qmul_eq (a b : ℚ) : qmul a b = a * b := by
  rw [qmul, Rat.mkRat_eq_div]
  push_cast
  rw [div_eq_iff (by positivity)]
  linear_combination (-(b.num : ℚ)) * rat_mul_den a - (a * (a.den : ℚ)) * rat_mul_den b

theorem qadd_eq (a b : ℚ) : qadd a b = a + b := by
  rw [qadd, Rat.mkRat_eq_div]
  push_cast
  rw [div_eq_iff (by positivity)]
  linear_combination (-(b.den : ℚ)) * rat_mul_den a - ((a.den : ℚ)) * rat_mul_den b

theorem qdivNat_eq (a : ℚ) (n : ℕ) : qdivNat a n = a / n := by
  rw [qdivNat, Rat.mkRat_eq_div]
  rcases Nat.eq_zero_or_pos n with h | h
  · subst h; simp
  · push_cast
    rw [div_eq_div_iff (by positivity) (by positivity)]
    linear_combination (-(n : ℚ)) * rat_mul_den a

theorem qround_eq (y : ℚ) : qround y = round y := by
  rw [round_eq, qround]
  have h2 : y + 1 / 2 = (((2 * y.num + y.den : ℤ) : ℚ) / ((2 * y.den : ℕ) : ℚ)) := by
    push_cast
    rw [eq_div_iff (by positivity)]
    linear_combination 2 * rat_mul_den y
  rw [h2, Rat.floor_intCast_div_natCast]
  rw [Int.fdiv_eq_ediv _ (by positivity)]
  norm_num

/-- Python `round(x, 2)` modelled exactly on rationals
(kernel-reducible). -/
def round2 (x : ℚ) : ℚ := mkRat (qround (qmul x 100)) 100

/-- `round2` agrees with the library round-half-up at two decimal
places. -/
theorem round2_eq (x : ℚ) : round2 x = (round (x * 100) : ℚ) / 100 := by
  rw [round2, qround_eq, qmul_eq, Rat.mkRat_eq_div]
  norm_num

/-! ### String utilities (Python semantics on `List Char`) -/

/-- `prefixMatch pat s` : does `pat` occur at the very start of `s`
(Python `s.startswith(pat)` on char lists)? -/
def prefixMatch : List Char → List Char → Bool
  | [], _ => true
  | _ :: _, [] => false
  | p :: ps, c :: cs => p = c && prefixMatch ps cs

/-- `containsPat s pat` : Python `pat in s` (contiguous substring search). -/
def containsPat : List Char → List Char → Bool
  | [], pat => prefixMatch pat []
  | c :: cs, pat => prefixMatch pat (c :: cs) || containsPat cs pat

/-- Fuel-driven worker for `removeAll`; the fuel is the length of the
string, enough because each step consumes at least one character when the
pattern is non-empty. -/
def removeAllAux : Nat → List Char → List Char → List Char
  | 0, s, _ => s
  | fuel + 1, s, pat =>
    match s with
    | [] => []
    | c :: cs =>
      if prefixMatch pat (c :: cs) then removeAllAux fuel ((c :: cs).drop pat.length) pat
      else c :: removeAllAux fuel cs pat

/-- Python `s.replace(pat, '')`: delete every (left-to-right,
non-overlapping) occurrence of `pat` in `s`. -/
def removeAll (s pat : List Char) : List Char := removeAllAux s.length s pat

/-- Python `s.strip()`: drop whitespace from both ends. -/
def stripList (s : List Char) : List Char :=
  ((s.dropWhile Char.isWhitespace).reverse.dropWhile Char.isWhitespace).reverse

/-- Value of a list of decimal digit characters. -/
def digitsVal (ds : List Char) : Nat := ds.foldl (fun n c => 10 * n + (c.toNat - 48)) 0

/-- Python `float` of an integer digit part `ip` and a fractional digit
part `fp`: the exact value `ip + fp / 10 ^ |fp|`. -/
def ratOfParts (ip fp : List Char) : ℚ :=
  mkRat (digitsVal ip * 10 ^ fp.length + digitsVal fp) (10 ^ fp.length)

/-- Fuel-driven scanner implementing Python
`re.findall(r'\d+(?:\.\d+)?', s)` followed by `float`: maximal digit runs,
optionally followed by a dot and a further non-empty digit run. -/
def scanAux : Nat → List Char → List ℚ
  | 0, _ => []
  | _ + 1, [] => []
  | fuel + 1, c :: cs =>
    if c.isDigit then
      let ds := (c :: cs).takeWhile Char.isDigit
      let rest := (c :: cs).dropWhile Char.isDigit
      match rest with
      | '.' :: d :: r2 =>
        if d.isDigit then
          let fs := (d :: r2).takeWhile Char.isDigit
          let rest2 := (d :: r2).dropWhile Char.isDigit
          ratOfParts ds fs :: scanAux fuel rest2
        else ratOfParts ds [] :: scanAux fuel rest
      | _ => ratOfParts ds [] :: scanAux fuel rest
    else scanAux fuel cs

/-- All decimal numbers occurring in `s`, in order. -/
def scanNumbers (s : List Char) : List ℚ := scanAux s.length s

/-- Python `min(l)` for non-empty `l` (default `d` for the empty list,
which callers rule out). -/
def listMin [LinearOrder α] (d : α) : List α → α
  | [] => d
  | x :: xs => xs.foldl min x

/-- Python `max(l)` for non-empty `l` (default `d` for the empty list,
which callers rule out). -/
def listMax [LinearOrder α] (d : α) : List α → α
  | [] => d
  | x :: xs => xs.foldl max x

/-! ### SalaryParser (`analyze_salary_range`, source lines 192-282) -/

/-- Output of the salary parser (`analyze_salary_range`). -/
structure SalaryEstimate where
  min_salary : ℚ
  max_salary : ℚ
  average_salary : ℚ
deriving DecidableEq, Repr

/-- The all-zero salary estimate. -/
def zeroEstimate : SalaryEstimate := ⟨0, 0, 0⟩

/-- Time-period multipliers of `analyze_salary_range`, in source order. -/
def time_multipliers : List (List Char × ℚ) :=
  [("/hr".data, 2080), ("per hour".data, 2080), ("hourly".data, 2080),
   ("/day".data, 260), ("per day".data, 260), ("daily".data, 260),
   ("/wk".data, 52), ("per week".data, 52), ("weekly".data, 52),
   ("/mo".data, 12), ("per month".data, 12), ("monthly".data, 12)]

/-- Magnitude multipliers of `analyze_salary_range`, in source order. -/
def magnitude_multipliers : List (List Char × ℚ) :=
  [("k".data, 1000), ("m".data, 1000000), ("thousand".data, 1000),
   ("million".data, 1000000), ("yr".data, 1), ("year".data, 1), ("annual".data, 1)]

/-- The `for ... if pattern in cleaned: ...; break` loops of the source:
first matching marker wins, its occurrences are removed, default
multiplier 1. -/
def findMultiplier : List (List Char × ℚ) → List Char → ℚ × List Char
  | [], s => (1, s)
  | (p, m) :: rest, s =>
    if containsPat s p then (m, removeAll s p) else findMultiplier rest s

/-- Lines 198-200 of the source: lower-case, strip, delete `$`, `,`,
`usd`, `us` (in that order). -/
def cleanSalaryText (salary_text : String) : List Char :=
  let cleaned := stripList (salary_text.data.map Char.toLower)
  let cleaned := removeAll cleaned "$".data
  let cleaned := removeAll cleaned ",".data
  let cleaned := removeAll cleaned "usd".data
  removeAll cleaned "us".data

/-- Lines 198-257 of the source: the numbers surviving cleaning,
multiplier application and the `10000 <= n <= 1000000` plausibility
filter. -/
def survivorsOf (salary_text : String) : List ℚ :=
  let cleaned := cleanSalaryText salary_text
  let tm := findMultiplier time_multipliers cleaned
  let mm := findMultiplier magnitude_multipliers tm.2
  let numbers := (scanNumbers mm.2).map (fun n => qmul (qmul n mm.1) tm.1)
  numbers.filter (fun n => decide (10000 ≤ n) && decide (n ≤ 1000000))

/-- Lines 259-282 of the source: the decision on the surviving numbers.
The single-number branch estimates the range as plus or minus 10% of the
value while keeping the value itself as the average. -/
def salaryDecision (numbers : List ℚ) : SalaryEstimate :=
  if 2 ≤ numbers.length then
    let min_sal := listMin 0 numbers
    let max_sal := listMax 0 numbers
    ⟨round2 min_sal, round2 max_sal, round2 (qdivNat (qadd min_sal max_sal) 2)⟩
  else if numbers.length = 1 then
    let salary := numbers.headD 0
    ⟨round2 (qmul salary (mkRat 9 10)), round2 (qmul salary (mkRat 11 10)), round2 salary⟩
  else zeroEstimate

/-- The later (overriding) `analyze_salary_range` of the source
(lines 192-282). -/
def analyze_salary_range (salary_text : String) : SalaryEstimate :=
  if salary_text = "" then zeroEstimate
  else salaryDecision (survivorsOf salary_text)

/-- `analyze_salary_range` on an arbitrary (possibly `None`) argument:
the guard `not salary_text or not isinstance(salary_text, str)` sends
`None` to the zero estimate. -/
def analyze_salary_range_opt : Option String → SalaryEstimate
  | none => zeroEstimate
  | some s => analyze_salary_range s

/-! ### WorkTypeClassifier (`detect_work_type`, source lines 150-190) -/

/-- The structural context markers of `detect_work_type`. -/
def context_markers : List String :=
  ["job type:", "work arrangement:", "location:", "position type:"]

/-- The keyword lists of `work_type_keywords`, in dict insertion order. -/
def work_type_keywords : List (String × List String) :=
  [("On-site", ["on-site", "onsite", "in office", "in-office", "office based",
                "office-based", "on location", "on-location", "physical location"]),
   ("Remote", ["remote", "work from home", "wfh", "virtual", "telecommute",
               "telework", "100% remote", "fully remote"]),
   ("Hybrid", ["hybrid", "flexible", "partially remote", "remote optional",
               "flexible work arrangement", "mix of remote and office"])]

/-- Source lines 158-170: the score of one category on a (lower-cased)
description.  A contained keyword adds 2 when a context marker is also
contained, otherwise 1; a contained negation (`not kw` / `no kw`)
subtracts 1 independently. -/
def keywordScore (description : List Char) (keywords : List String) : Int :=
  keywords.foldl (fun score keyword =>
    let score :=
      if containsPat description keyword.data then
        (if context_markers.any (fun c => containsPat description c.data)
         then score + 2 else score + 1)
      else score
    if containsPat description ("not " ++ keyword).data
       || containsPat description ("no " ++ keyword).data
    then score - 1 else score) 0

/-- Source lines 172-190: the decision on the three category scores
(given in dict insertion order On-site, Remote, Hybrid). -/
def decideWorkType (sOn sRem sHyb : Int) : String :=
  let matchScores := [("On-site", sOn), ("Remote", sRem), ("Hybrid", sHyb)]
  let valid_matches := matchScores.filter (fun p => decide (0 < p.2))
  if valid_matches.isEmpty then "Unknown"
  else
    let max_matches := listMax 0 (valid_matches.map Prod.snd)
    let max_types := (valid_matches.filter (fun p => decide (p.2 = max_matches))).map Prod.fst
    if max_types.length = 1 then max_types.headD "Unknown"
    else
      match ["Remote", "Hybrid", "On-site"].find? (fun wt => max_types.contains wt) with
      | some wt => wt
      | none => "Unknown"

/-- The full `detect_work_type` of the source (lines 150-190). -/
def detect_work_type (description : String) : String :=
  if description = "" then "Unknown"
  else
    let d := description.data.map Char.toLower
    decideWorkType
      (keywordScore d (work_type_keywords.headD ("", [])).2)
      (keywordScore d ((work_type_keywords.drop 1).headD ("", [])).2)
      (keywordScore d ((work_type_keywords.drop 2).headD ("", [])).2)

/-- The claim's reading of the work-type decision (source lines 172-190):
discard non-positive scores; if none remain return Unknown; otherwise
return the maximum-scoring category, ties at the maximum broken by the
fixed priority Remote > Hybrid > On-site. -/
def specDecideWorkType (sOn sRem sHyb : Int) : String :=
  if sOn ≤ 0 ∧ sRem ≤ 0 ∧ sHyb ≤ 0 then "Unknown"
  else
    if sRem = max (max sOn sRem) sHyb then "Remote"
    else if sHyb = max (max sOn sRem) sHyb then "Hybrid"
    else "On-site"

/-! ### SkillExtractor (`extract_skills`, source lines 21-36) -/

/-- The known-skill vocabulary `common_skills` of the source. -/
def common_skills : List String :=
  ["python", "java", "javascript", "sql", "aws", "react", "node.js",
   "docker", "kubernetes", "machine learning", "data analysis"]

/-- Split a char list at spaces (worker for `tokenize`). -/
def splitSpaces : List Char → List Char → List String
  | [], cur => [String.mk cur.reverse]
  | c :: cs, cur =>
    if c = ' ' then String.mk cur.reverse :: splitSpaces cs []
    else splitSpaces cs (c :: cur)

/-- Modelled from the spec: the source tokenizes with the external spaCy
NLP library (`self.nlp(text.lower())`), which is not part of this
repository; per spec section 4.3 this is "tokenize the lower-cased text
into a sequence of word-like tokens (whitespace/punctuation-delimited,
order preserved)", modelled as whitespace splitting of the lower-cased
text. -/
def tokenize (text : String) : List String :=
  (splitSpaces (text.data.map Char.toLower) []).filter (fun t => t ≠ "")

/-- Python `set.add`: insert a skill if not already present. -/
def addSkill (s : String) (acc : List String) : List String :=
  if s ∈ acc then acc else acc ++ [s]

/-- The token loop of `extract_skills` (source lines 27-34): each token is
matched against the vocabulary, and each adjacent-token bigram as well
(the bigram check fires only when a next token exists). -/
def collectSkills : List String → List String → List String
  | acc, [] => acc
  | acc, [t] => if t ∈ common_skills then addSkill t acc else acc
  | acc, t :: u :: rest =>
    let acc1 := if t ∈ common_skills then addSkill t acc else acc
    let acc2 := if (t ++ " " ++ u) ∈ common_skills then addSkill (t ++ " " ++ u) acc1 else acc1
    collectSkills acc2 (u :: rest)

/-- `extract_skills` of the source (lines 21-36): the set of known skills
occurring in the text as tokens or adjacent-token bigrams. -/
def extract_skills (text : String) : List String :=
  collectSkills [] (tokenize text)

/-! ### Aggregation (`get_skill_trends`, `get_salary_insights`) -/

/-- A job listing as consumed by the aggregation methods: the dict keys
they access.  `none` models an absent key; `salary` is the generic
fallback field (already stringified, as the source applies `str`). -/
structure Job where
  salary_range : Option String
  salary : Option String
  description : String
deriving DecidableEq, Repr

/-- Python truthiness of `job.get('salary_range')`: a present, non-empty
string. -/
def truthyOpt : Option String → Bool
  | some s => decide (s ≠ "")
  | none => false

/-- Source lines 320-332: the salary value one job contributes to the
statistics (its parsed `average_salary`, when positive), preferring a
truthy `salary_range` and falling back to a present `salary` key. -/
def jobSalaryContribution (job : Job) : Option ℚ :=
  if truthyOpt job.salary_range then
    let salary_data := analyze_salary_range (job.salary_range.getD "")
    if 0 < salary_data.average_salary then some salary_data.average_salary else none
  else
    match job.salary with
    | some s =>
      let salary_data := analyze_salary_range s
      if 0 < salary_data.average_salary then some salary_data.average_salary else none
    | none => none

/-- Output of `get_salary_insights`. -/
structure SalaryStats where
  min_salary : ℚ
  max_salary : ℚ
  average_salary : ℚ
  median_salary : ℚ
deriving DecidableEq, Repr

/-- The all-zero salary statistics. -/
def zeroStats : SalaryStats := ⟨0, 0, 0, 0⟩

/-- Python `sum(l)` (kernel-reducible). -/
def qlistSum (l : List ℚ) : ℚ := l.foldl qadd 0

/-- `get_salary_insights` of the source (lines 310-347): collect the
positive parsed averages, then return their min, max, mean and the
element at index `len // 2` of the ascending sort. -/
def get_salary_insights (jobs : List Job) : SalaryStats :=
  match jobs.filterMap jobSalaryContribution with
  | [] => zeroStats
  | s :: rest =>
    let salaries := s :: rest
    { min_salary := listMin 0 salaries
      max_salary := listMax 0 salaries
      average_salary := qdivNat (qlistSum salaries) salaries.length
      median_salary := (List.insertionSort (· ≤ ·) salaries).getD (salaries.length / 2) 0 }

/-- `get_skill_trends` of the source (lines 120-135), as the counting
function of the resulting `Counter` dict: the number of occurrences of a
skill in the concatenation of the per-listing extracted skill sets. -/
def get_skill_trends (jobs : List Job) (skill : String) : Nat :=
  (jobs.foldl (fun all_skills job => all_skills ++ extract_skills job.description) []).count skill

/-! ### Helper lemmas -/

theorem foldl_min_le_init [LinearOrder α] (l : List α) (a : α) : l.foldl min a ≤ a := by
  induction l generalizing a with
  | nil => simp
  | cons x xs ih => simpa using le_trans (ih (min a x)) (min_le_left a x)

theorem foldl_min_le_of_mem [LinearOrder α] {l : List α} {x : α} (h : x ∈ l) (a : α) :
    l.foldl min a ≤ x := by
  induction l generalizing a with
  | nil => cases h
  | cons y ys ih =>
    rcases List.mem_cons.mp h with rfl | h2
    · exact le_trans (foldl_min_le_init ys (min a x)) (min_le_right a x)
    · exact ih h2 (min a y)

theorem foldl_min_eq_or_mem [LinearOrder α] (l : List α) (a : α) :
    l.foldl min a = a ∨ l.foldl min a ∈ l := by
  induction l generalizing a with
  | nil => exact Or.inl rfl
  | cons x xs ih =>
    have hstep : List.foldl min a (x :: xs) = List.foldl min (min a x) xs := rfl
    rw [hstep]
    rcases ih (min a x) with h | h
    · rw [h]
      rcases le_total a x with hax | hax
      · exact Or.inl (min_eq_left hax)
      · exact Or.inr (by rw [min_eq_right hax]; exact List.mem_cons_self x xs)
    · exact Or.inr (List.mem_cons_of_mem x h)

theorem listMin_le_of_mem [LinearOrder α] (d : α) {l : List α} {x : α} (h : x ∈ l) :
    listMin d l ≤ x := by
  cases l with
  | nil => cases h
  | cons y ys =>
    rcases List.mem_cons.mp h with rfl | h2
    · exact foldl_min_le_init ys x
    · exact foldl_min_le_of_mem h2 y

theorem listMin_mem [LinearOrder α] (d : α) {l : List α} (h : l ≠ []) : listMin d l ∈ l := by
  cases l with
  | nil => exact absurd rfl h
  | cons y ys =>
    have hstep : listMin d (y :: ys) = List.foldl min y ys := rfl
    rw [hstep]
    rcases foldl_min_eq_or_mem ys y with h2 | h2
    · rw [h2]; exact List.mem_cons_self y ys
    · exact List.mem_cons_of_mem y h2

theorem le_foldl_max_init [LinearOrder α] (l : List α) (a : α) : a ≤ l.foldl max a := by
  induction l generalizing a with
  | nil => simp
  | cons x xs ih => simpa using le_trans (le_max_left a x) (ih (max a x))

theorem le_foldl_max_of_mem [LinearOrder α] {l : List α} {x : α} (h : x ∈ l) (a : α) :
    x ≤ l.foldl max a := by
  induction l generalizing a with
  | nil => cases h
  | cons y ys ih =>
    rcases List.mem_cons.mp h with rfl | h2
    · exact le_trans (le_max_right a x) (le_foldl_max_init ys (max a x))
    · exact ih h2 (max a y)

theorem foldl_max_eq_or_mem [LinearOrder α] (l : List α) (a : α) :
    l.foldl max a = a ∨ l.foldl max a ∈ l := by
  induction l generalizing a with
  | nil => exact Or.inl rfl
  | cons x xs ih =>
    have hstep : List.foldl max a (x :: xs) = List.foldl max (max a x) xs := rfl
    rw [hstep]
    rcases ih (max a x) with h | h
    · rw [h]
      rcases le_total a x with hax | hax
      · exact Or.inr (by rw [max_eq_right hax]; exact List.mem_cons_self x xs)
      · exact Or.inl (max_eq_left hax)
    · exact Or.inr (List.mem_cons_of_mem x h)

theorem le_listMax_of_mem [LinearOrder α] (d : α) {l : List α} {x : α} (h : x ∈ l) :
    x ≤ listMax d l := by
  cases l with
  | nil => cases h
  | cons y ys =>
    rcases List.mem_cons.mp h with rfl | h2
    · exact le_foldl_max_init ys x
    · exact le_foldl_max_of_mem h2 y

theorem listMax_mem [LinearOrder α] (d : α) {l : List α} (h : l ≠ []) : listMax d l ∈ l := by
  cases l with
  | nil => exact absurd rfl h
  | cons y ys =>
    have hstep : listMax d (y :: ys) = List.foldl max y ys := rfl
    rw [hstep]
    rcases foldl_max_eq_or_mem ys y with h2 | h2
    · rw [h2]; exact List.mem_cons_self y ys
    · exact List.mem_cons_of_mem y h2

theorem round2_mono {x y : ℚ} (h : x ≤ y) : round2 x ≤ round2 y := by
  rw [round2_eq, round2_eq]
  have hr : round (x * 100) ≤ round (y * 100) := by
    rw [round_eq, round_eq]
    exact Int.floor_le_floor (by linarith)
  have h2 : ((round (x * 100) : ℤ) : ℚ) ≤ ((round (y * 100) : ℤ) : ℚ) := Int.cast_le.mpr hr
  exact (div_le_div_iff_of_pos_right (by norm_num)).mpr h2

theorem survivors_bounds {s : String} {x : ℚ} (h : x ∈ survivorsOf s) :
    10000 ≤ x ∧ x ≤ 1000000 := by
  unfold survivorsOf at h
  have h2 := List.of_mem_filter h
  simpa using h2

/-! ### Salary decision lemmas and salary claims -/

theorem salaryDecision_single (v : ℚ) :
    salaryDecision [v] = ⟨round2 (9/10 * v), round2 (11/10 * v), round2 v⟩ := by
  have h9 : (mkRat 9 10 : ℚ) = 9/10 := by rw [Rat.mkRat_eq_div]; norm_num
  have h11 : (mkRat 11 10 : ℚ) = 11/10 := by rw [Rat.mkRat_eq_div]; norm_num
  unfold salaryDecision
  rw [if_neg (by norm_num), if_pos (by norm_num)]
  simp only [List.headD_cons, SalaryEstimate.mk.injEq]
  rw [qmul_eq, qmul_eq, h9, h11]
  exact ⟨by rw [mul_comm], by rw [mul_comm], trivial⟩

theorem salaryDecision_pair (a b : ℚ) (hab : a ≤ b) :
    salaryDecision [a, b] = ⟨round2 a, round2 b, round2 ((a + b) / 2)⟩ := by
  unfold salaryDecision
  rw [if_pos (by norm_num)]
  have hmin : listMin 0 [a, b] = a := by
    have hstep : listMin (0 : ℚ) [a, b] = min a b := rfl
    rw [hstep, min_eq_left hab]
  have hmax : listMax 0 [a, b] = b := by
    have hstep : listMax (0 : ℚ) [a, b] = max a b := rfl
    rw [hstep, max_eq_right hab]
  rw [hmin, hmax]
  show SalaryEstimate.mk (round2 a) (round2 b) (round2 (qdivNat (qadd a b) 2)) = _
  have hmid : qdivNat (qadd a b) 2 = (a + b) / 2 := by
    rw [qadd_eq, qdivNat_eq]; norm_num
  rw [hmid]

/-- C1: when the parsing pipeline leaves exactly one in-range number `v`,
`analyze_salary_range` returns `min = 0.9 * v`, `max = 1.1 * v` and
`average = v` (the raw value, not the midpoint), all rounded to two
decimal places. -/
theorem salary_single_number_rule (s : String) (v : ℚ) (h : survivorsOf s = [v]) :
    analyze_salary_range s = ⟨round2 (9/10 * v), round2 (11/10 * v), round2 v⟩ := by
  unfold analyze_salary_range
  rcases eq_or_ne s "" with rfl | hs
  · have h0 : survivorsOf "" = [] := by decide
    rw [h0] at h; cases h
  · rw [if_neg hs, h, salaryDecision_single]

theorem salary_single_number_rule_witness :
    survivorsOf "$45/hr" = [93600] ∧
    analyze_salary_range "$45/hr" = ⟨84240, 102960, 93600⟩ := by
  refine ⟨by decide, ?_⟩
  have h := salary_single_number_rule "$45/hr" 93600 (by decide)
  have e1 : (9 : ℚ)/10 * 93600 = 84240 := by norm_num
  have e2 : (11 : ℚ)/10 * 93600 = 102960 := by norm_num
  rw [h, e1, e2]
  decide

/-- C3: when the parsing pipeline leaves exactly two in-range numbers
`a ≤ b`, `analyze_salary_range` returns `min = a`, `max = b` and
`average = (a + b) / 2` (the midpoint of min and max), rounded to two
decimal places. -/
theorem salary_two_numbers_rule (s : String) (a b : ℚ)
    (h : survivorsOf s = [a, b]) (hab : a ≤ b) :
    analyze_salary_range s = ⟨round2 a, round2 b, round2 ((a + b) / 2)⟩ := by
  unfold analyze_salary_range
  rcases eq_or_ne s "" with rfl | hs
  · have h0 : survivorsOf "" = [] := by decide
    rw [h0] at h; cases h
  · rw [if_neg hs, h, salaryDecision_pair a b hab]

theorem salary_two_numbers_rule_witness :
    survivorsOf "$80,000 - $100,000" = [80000, 100000] ∧
    analyze_salary_range "$80,000 - $100,000" = ⟨80000, 100000, 90000⟩ := by
  refine ⟨by decide, ?_⟩
  have h := salary_two_numbers_rule "$80,000 - $100,000" 80000 100000 (by decide) (by norm_num)
  have e1 : ((80000 : ℚ) + 100000) / 2 = 90000 := by norm_num
  rw [h, e1]
  decide

/-- C2 (failing input): the magnitude table does map `thousand` to 1000,
but `analyze_salary_range "50 thousand"` returns the all-zero estimate
instead of an estimate with average 50000: the currency-token cleaning
`replace('us', '')` has already turned `thousand` into `thoand`, so the
marker never matches and the bare 50 falls outside the plausible band. -/
theorem salary_thousand_marker_bug :
    analyze_salary_range "50 thousand" = zeroEstimate ∧
    ("thousand".data, (1000 : ℚ)) ∈ magnitude_multipliers := by
  exact ⟨by decide, by decide⟩

/-- C7: the salary parser is a total function in this embedding (it never
raises), and both `None` and the empty string map to the all-zero
estimate. -/
theorem parser_total_on_empty_and_none :
    analyze_salary_range_opt none = zeroEstimate ∧
    analyze_salary_range "" = zeroEstimate := by
  exact ⟨rfl, by decide⟩


theorem round2_const_9000 : round2 9000 = 9000 := by decide

theorem round2_pos_of_ge {x : ℚ} (h : 9000 ≤ x) : 0 < round2 x := by
  have h2 := round2_mono h
  rw [round2_const_9000] at h2
  linarith

theorem salaryDecision_invariant (nums : List ℚ)
    (hb : ∀ x ∈ nums, 10000 ≤ x ∧ x ≤ 1000000) :
    (salaryDecision nums).min_salary ≤ (salaryDecision nums).average_salary ∧
    (salaryDecision nums).average_salary ≤ (salaryDecision nums).max_salary ∧
    (((salaryDecision nums).min_salary = 0 ∧ (salaryDecision nums).average_salary = 0 ∧
      (salaryDecision nums).max_salary = 0) ∨
     (0 < (salaryDecision nums).min_salary ∧ 0 < (salaryDecision nums).average_salary ∧
      0 < (salaryDecision nums).max_salary)) := by
  unfold salaryDecision
  split_ifs with h1 h2
  · -- two or more numbers
    have hne : nums ≠ [] := by
      intro h; subst h; simp at h1
    have hminmem := listMin_mem (0 : ℚ) hne
    have hmaxmem := listMax_mem (0 : ℚ) hne
    have hmm : listMin 0 nums ≤ listMax 0 nums := listMin_le_of_mem 0 hmaxmem
    have hmin10 : (10000 : ℚ) ≤ listMin 0 nums := (hb _ hminmem).1
    have hmid : qdivNat (qadd (listMin 0 nums) (listMax 0 nums)) 2 =
        (listMin 0 nums + listMax 0 nums) / 2 := by
      rw [qadd_eq, qdivNat_eq]; norm_num
    simp only [hmid]
    refine ⟨round2_mono (by linarith), round2_mono (by linarith), Or.inr ⟨?_, ?_, ?_⟩⟩
    · exact round2_pos_of_ge (by linarith)
    · exact round2_pos_of_ge (by linarith)
    · exact round2_pos_of_ge (by linarith)
  · -- exactly one number
    obtain ⟨v, rfl⟩ := List.length_eq_one.mp h2
    have hv := hb v (List.mem_singleton_self v)
    have h9 : qmul v (mkRat 9 10) = 9/10 * v := by
      rw [qmul_eq]
      have hm : (mkRat 9 10 : ℚ) = 9/10 := by rw [Rat.mkRat_eq_div]; norm_num
      rw [hm, mul_comm]
    have h11 : qmul v (mkRat 11 10) = 11/10 * v := by
      rw [qmul_eq]
      have hm : (mkRat 11 10 : ℚ) = 11/10 := by rw [Rat.mkRat_eq_div]; norm_num
      rw [hm, mul_comm]
    simp only [List.headD_cons, h9, h11]
    refine ⟨round2_mono (by nlinarith [hv.1]), round2_mono (by nlinarith [hv.1]),
      Or.inr ⟨?_, ?_, ?_⟩⟩
    · exact round2_pos_of_ge (by nlinarith [hv.1])
    · exact round2_pos_of_ge (by nlinarith [hv.1])
    · exact round2_pos_of_ge (by nlinarith [hv.1])
  · -- zero numbers
    exact ⟨le_refl _, le_refl _, Or.inl ⟨rfl, rfl, rfl⟩⟩

/-- C8: every estimate returned by `analyze_salary_range` satisfies
`min_salary ≤ average_salary ≤ max_salary`, and the three fields are
jointly zero or jointly positive — never partially populated. -/
theorem salary_estimate_joint_invariant (s : String) :
    (analyze_salary_range s).min_salary ≤ (analyze_salary_range s).average_salary ∧
    (analyze_salary_range s).average_salary ≤ (analyze_salary_range s).max_salary ∧
    (((analyze_salary_range s).min_salary = 0 ∧ (analyze_salary_range s).average_salary = 0 ∧
      (analyze_salary_range s).max_salary = 0) ∨
     (0 < (analyze_salary_range s).min_salary ∧ 0 < (analyze_salary_range s).average_salary ∧
      0 < (analyze_salary_range s).max_salary)) := by
  unfold analyze_salary_range
  split_ifs with h
  · exact ⟨le_refl _, le_refl _, Or.inl ⟨rfl, rfl, rfl⟩⟩
  · exact salaryDecision_invariant _ (fun x hx => survivors_bounds hx)

set_option maxHeartbeats 1000000 in
/-- C6: the decision stage of `detect_work_type` agrees with the claim's
description for all integer scores: non-positive scores are discarded,
Unknown when none remain, the maximum score wins, and ties at the
maximum go to the first of Remote, Hybrid, On-site. -/
theorem decideWorkType_eq_spec (sOn sRem sHyb : Int) :
    decideWorkType sOn sRem sHyb = specDecideWorkType sOn sRem sHyb := by
  rcases lt_or_le 0 sOn with h1 | h1 <;> rcases lt_or_le 0 sRem with h2 | h2 <;>
      rcases lt_or_le 0 sHyb with h3 | h3 <;>
    simp only [decideWorkType, specDecideWorkType, List.filter_cons, List.filter_nil,
      decide_eq_true_eq, h1, h2, h3, decide_eq_true, decide_eq_false, if_true, if_false,
      not_lt.mpr, List.isEmpty_cons, List.isEmpty_nil, List.map_cons, List.map_nil,
      listMax, List.foldl] <;>
    split_ifs <;>
    first
    | rfl
    | decide
    | omega
    | (simp only [max_def] at * <;> split_ifs at * <;>
        first
        | omega
        | (simp_all <;> omega)
        | simp_all)

/-! ### Skill extraction and aggregation claims -/

theorem addSkill_nodup {acc : List String} (h : acc.Nodup) (s : String) :
    (addSkill s acc).Nodup := by
  unfold addSkill
  split_ifs with hs
  · exact h
  · simp [List.nodup_append, h, hs]

theorem mem_addSkill {acc : List String} {s x : String} :
    x ∈ addSkill s acc ↔ x ∈ acc ∨ x = s := by
  unfold addSkill
  split_ifs with hs
  · constructor
    · exact Or.inl
    · rintro (h | rfl)
      · exact h
      · exact hs
  · simp

theorem collectSkills_nodup :
    ∀ (toks acc : List String), acc.Nodup → (collectSkills acc toks).Nodup := by
  intro toks
  induction toks with
  | nil => intro acc h; exact h
  | cons t rest ih =>
    intro acc h
    cases rest with
    | nil =>
      simp only [collectSkills]
      split_ifs
      · exact addSkill_nodup h t
      · exact h
    | cons u more =>
      simp only [collectSkills]
      apply ih
      split_ifs <;> first | exact addSkill_nodup (addSkill_nodup h t) _
                          | exact addSkill_nodup h _ | exact h

theorem collectSkills_mem_vocab :
    ∀ (toks acc : List String) (x : String), x ∈ collectSkills acc toks →
      x ∈ acc ∨ x ∈ common_skills := by
  intro toks
  induction toks with
  | nil => intro acc x h; exact Or.inl h
  | cons t rest ih =>
    intro acc x h
    cases rest with
    | nil =>
      simp only [collectSkills] at h
      revert h
      split_ifs with ht
      · intro h
        rcases mem_addSkill.mp h with h3 | rfl
        · exact Or.inl h3
        · exact Or.inr ht
      · exact Or.inl
    | cons u more =>
      simp only [collectSkills] at h
      rcases ih _ x h with h2 | h2
      · revert h2
        split_ifs with h1g hbg hbg
        · intro h2
          rcases mem_addSkill.mp h2 with h3 | rfl
          · rcases mem_addSkill.mp h3 with h4 | rfl
            · exact Or.inl h4
            · exact Or.inr hbg
          · exact Or.inr h1g
        · intro h2
          rcases mem_addSkill.mp h2 with h3 | rfl
          · exact Or.inl h3
          · exact Or.inr h1g
        · intro h2
          rcases mem_addSkill.mp h2 with h3 | rfl
          · exact Or.inl h3
          · exact Or.inr hbg
        · exact Or.inl
      · exact Or.inr h2

theorem extract_skills_nodup (text : String) : (extract_skills text).Nodup :=
  collectSkills_nodup _ [] List.nodup_nil

theorem extract_skills_mem_vocab {text : String} {x : String}
    (h : x ∈ extract_skills text) : x ∈ common_skills := by
  rcases collectSkills_mem_vocab _ [] x h with h2 | h2
  · cases h2
  · exact h2


theorem count_flat_le (skill : String) :
    ∀ (jobs : List Job) (acc : List String),
      ((jobs.foldl (fun all_skills job => all_skills ++ extract_skills job.description) acc).count
        skill) ≤ acc.count skill + jobs.length := by
  intro jobs
  induction jobs with
  | nil => intro acc; simp
  | cons j rest ih =>
    intro acc
    have hstep :
        (j :: rest).foldl (fun all_skills job => all_skills ++ extract_skills job.description) acc
          = rest.foldl (fun all_skills job => all_skills ++ extract_skills job.description)
              (acc ++ extract_skills j.description) := rfl
    rw [hstep]
    have h1 := ih (acc ++ extract_skills j.description)
    have h2 : (acc ++ extract_skills j.description).count skill
        = acc.count skill + (extract_skills j.description).count skill := List.count_append _ _ _
    have h3 : (extract_skills j.description).count skill ≤ 1 :=
      List.nodup_iff_count_le_one.mp (extract_skills_nodup _) skill
    simp only [List.length_cons]
    omega

/-- C10: `get_skill_trends` counts each skill at most once per listing:
every frequency is bounded by the number of listings, and a skill present
in a listing's description contributes exactly 1 for that listing. -/
theorem get_skill_trends_once :
    (∀ (jobs : List Job) (skill : String), get_skill_trends jobs skill ≤ jobs.length) ∧
    (∀ (job : Job) (skill : String), skill ∈ extract_skills job.description →
      (extract_skills job.description).count skill = 1) := by
  constructor
  · intro jobs skill
    have h := count_flat_le skill jobs []
    simpa [get_skill_trends] using h
  · intro job skill h
    have h1 : (extract_skills job.description).count skill ≤ 1 :=
      List.nodup_iff_count_le_one.mp (extract_skills_nodup _) skill
    have h2 : 0 < (extract_skills job.description).count skill := List.count_pos_iff.mpr h
    omega

theorem get_skill_trends_once_witness :
    "python" ∈ extract_skills (Job.mk none none "python and python").description ∧
    (extract_skills (Job.mk none none "python and python").description).count "python" = 1 :=
  ⟨by decide, get_skill_trends_once.2 (Job.mk none none "python and python") "python" (by decide)⟩

/-- C9: `extract_skills` on the spec's example yields exactly the set
{python, machine learning}; on every text its result is deduplicated and
contains only known-vocabulary skills (matched as single tokens or
adjacent-token bigrams of the lower-cased text). -/
theorem extract_skills_spec :
    List.Perm (extract_skills "I use Python and Machine Learning daily")
        ["python", "machine learning"] ∧
    (∀ text : String, (extract_skills text).Nodup) ∧
    (∀ (text sk : String), sk ∈ extract_skills text → sk ∈ common_skills) :=
  ⟨by decide, extract_skills_nodup, fun _ _ h => extract_skills_mem_vocab h⟩

theorem extract_skills_spec_witness :
    "python" ∈ extract_skills "python rocks" ∧ "python" ∈ common_skills :=
  ⟨by decide, extract_skills_spec.2.2 "python rocks" "python" (by decide)⟩


theorem foldl_qadd_eq (l : List ℚ) : ∀ x : ℚ, l.foldl qadd x = x + l.sum := by
  induction l with
  | nil => intro x; simp
  | cons y ys ih =>
    intro x
    have hstep : (y :: ys).foldl qadd x = ys.foldl qadd (qadd x y) := rfl
    rw [hstep, ih, qadd_eq, List.sum_cons]
    ring

theorem qlistSum_eq (l : List ℚ) : qlistSum l = l.sum := by
  rw [qlistSum, foldl_qadd_eq, zero_add]

/-- C4: `get_salary_insights` is the all-zero statistics when no positive
parsed average is collected; otherwise its `min`/`max` are the least and
greatest collected averages, its `average` is their arithmetic mean, and
its `median` is the element at index `count / 2` of the collected
averages sorted ascending (witnessed by a sorted permutation). -/
theorem salary_insights_stats (jobs : List Job) :
    (jobs.filterMap jobSalaryContribution = [] → get_salary_insights jobs = zeroStats) ∧
    (jobs.filterMap jobSalaryContribution ≠ [] →
      ((get_salary_insights jobs).min_salary ∈ jobs.filterMap jobSalaryContribution ∧
        ∀ x ∈ jobs.filterMap jobSalaryContribution, (get_salary_insights jobs).min_salary ≤ x) ∧
      ((get_salary_insights jobs).max_salary ∈ jobs.filterMap jobSalaryContribution ∧
        ∀ x ∈ jobs.filterMap jobSalaryContribution, x ≤ (get_salary_insights jobs).max_salary) ∧
      (get_salary_insights jobs).average_salary =
        (jobs.filterMap jobSalaryContribution).sum /
          ((jobs.filterMap jobSalaryContribution).length : ℚ) ∧
      (∃ l : List ℚ, l.Perm (jobs.filterMap jobSalaryContribution) ∧ l.Sorted (· ≤ ·) ∧
        (get_salary_insights jobs).median_salary =
          l.getD ((jobs.filterMap jobSalaryContribution).length / 2) 0)) := by
  constructor
  · intro h
    simp only [get_salary_insights, h]
  · intro h
    cases hS : jobs.filterMap jobSalaryContribution with
    | nil => exact absurd hS h
    | cons s rest =>
      have hins : get_salary_insights jobs =
          { min_salary := listMin 0 (s :: rest)
            max_salary := listMax 0 (s :: rest)
            average_salary := qdivNat (qlistSum (s :: rest)) (s :: rest).length
            median_salary :=
              (List.insertionSort (· ≤ ·) (s :: rest)).getD ((s :: rest).length / 2) 0 } := by
        simp only [get_salary_insights, hS]
      rw [hins]
      refine ⟨⟨listMin_mem 0 (by simp), fun x hx => listMin_le_of_mem 0 hx⟩,
        ⟨listMax_mem 0 (by simp), fun x hx => le_listMax_of_mem 0 hx⟩, ?_,
        ⟨List.insertionSort (· ≤ ·) (s :: rest),
          List.perm_insertionSort (· ≤ ·) (s :: rest),
          List.sorted_insertionSort (· ≤ ·) (s :: rest), rfl⟩⟩
      rw [qlistSum_eq, qdivNat_eq]

theorem salary_insights_stats_witness :
    (([] : List Job).filterMap jobSalaryContribution = []) ∧
    get_salary_insights [] = zeroStats ∧
    (([⟨some "40000", none, ""⟩, ⟨some "60000", none, ""⟩] : List Job).filterMap
        jobSalaryContribution ≠ []) ∧
    (((get_salary_insights [⟨some "40000", none, ""⟩, ⟨some "60000", none, ""⟩]).min_salary ∈
        ([⟨some "40000", none, ""⟩, ⟨some "60000", none, ""⟩] : List Job).filterMap
          jobSalaryContribution ∧
      ∀ x ∈ ([⟨some "40000", none, ""⟩, ⟨some "60000", none, ""⟩] : List Job).filterMap
          jobSalaryContribution,
        (get_salary_insights [⟨some "40000", none, ""⟩, ⟨some "60000", none, ""⟩]).min_salary ≤ x) ∧
    ((get_salary_insights [⟨some "40000", none, ""⟩, ⟨some "60000", none, ""⟩]).max_salary ∈
        ([⟨some "40000", none, ""⟩, ⟨some "60000", none, ""⟩] : List Job).filterMap
          jobSalaryContribution ∧
      ∀ x ∈ ([⟨some "40000", none, ""⟩, ⟨some "60000", none, ""⟩] : List Job).filterMap
          jobSalaryContribution,
        x ≤ (get_salary_insights [⟨some "40000", none, ""⟩, ⟨some "60000", none, ""⟩]).max_salary) ∧
    (get_salary_insights [⟨some "40000", none, ""⟩, ⟨some "60000", none, ""⟩]).average_salary =
      (([⟨some "40000", none, ""⟩, ⟨some "60000", none, ""⟩] : List Job).filterMap
          jobSalaryContribution).sum /
        ((([⟨some "40000", none, ""⟩, ⟨some "60000", none, ""⟩] : List Job).filterMap
          jobSalaryContribution).length : ℚ) ∧
    (∃ l : List ℚ,
        l.Perm (([⟨some "40000", none, ""⟩, ⟨some "60000", none, ""⟩] : List Job).filterMap
          jobSalaryContribution) ∧ l.Sorted (· ≤ ·) ∧
        (get_salary_insights [⟨some "40000", none, ""⟩, ⟨some "60000", none, ""⟩]).median_salary =
          l.getD ((([⟨some "40000", none, ""⟩, ⟨some "60000", none, ""⟩] : List Job).filterMap
            jobSalaryContribution).length / 2) 0)) :=
  ⟨rfl, (salary_insights_stats []).1 rfl, by decide, (salary_insights_stats _).2 (by decide)⟩

/-- C5 (amended): on a collection in which every listing has an empty
`salary_range` and no `salary` key, `get_salary_insights` returns the
all-zero statistics.  (As stated the claim is false: an empty
`salary_range` is falsy in Python, so the generic `salary` fallback
applies to it as well — see the counterexample.) -/
theorem insights_all_empty_salary_range (jobs : List Job)
    (h : ∀ j ∈ jobs, j.salary_range = some "" ∧ j.salary = none) :
    get_salary_insights jobs = zeroStats := by
  have hnil : jobs.filterMap jobSalaryContribution = [] := by
    rw [List.filterMap_eq_nil_iff]
    intro j hj
    obtain ⟨h1, h2⟩ := h j hj
    simp [jobSalaryContribution, truthyOpt, h1, h2]
  simp only [get_salary_insights, hnil]

theorem insights_all_empty_salary_range_witness :
    (∀ j ∈ ([⟨some "", none, "desc"⟩] : List Job), j.salary_range = some "" ∧ j.salary = none) ∧
    get_salary_insights [⟨some "", none, "desc"⟩] = zeroStats :=
  ⟨by decide, insights_all_empty_salary_range _ (by decide)⟩

/-- C5 (counterexample): a collection in which every listing's
`salary_range` is the empty string, yet `get_salary_insights` is not
all-zero, because the empty string is falsy and the listing's `salary`
field is consulted instead. -/
theorem insights_empty_salary_range_counterexample :
    (∀ j ∈ ([⟨some "", some "50000", ""⟩] : List Job), j.salary_range = some "") ∧
    get_salary_insights [⟨some "", some "50000", ""⟩] ≠ zeroStats :=
  ⟨by decide, by decide⟩

end JobAnalyser
